import Mathlib

set_option maxRecDepth 100000

/-!
Verification development for the newspicker curation-and-health subsystem.

Shallow embedding of the selection pipeline (`src/agents/scout.py`) and the
feed-maintenance tool (`src/scripts/maintain_feeds.py`).

Modelling conventions:
* Python `float` values (scores, weights) are modelled as `ℚ`.
* Timestamps (`datetime` values and ISO strings) are modelled as `Int`
  (seconds); `timedelta(hours=h)` becomes `h * 3600`.
* Python string lowercasing (`str.lower`) is modelled by mapping
  `Char.toLower` over the characters; the substring test `kw in text` is
  modelled as list-infix on the character lists.
* Network and filesystem effects are factored out: fetchers receive the
  already-downloaded, already-parsed entries as arguments, the probe result
  of `check_feed_health` is an argument (`alive`), the grounded-search
  oracle is an argument, and the persisted stores (seen-urls file, health
  JSON) are passed in and returned as values.
-/

/-- `Article` from `src/agents/scout.py` (dataclass `Article`). -/
structure Article where
  title : String
  url : String
  summary : String
  published_at : Int
  source : String
  score : ℚ
  origin : String
deriving Repr, DecidableEq

/-- Python `str.lower()`, modelled characterwise. -/
def lowerStr (s : String) : String := String.mk (s.data.map Char.toLower)

/-- Python substring test `needle in hay` on strings. -/
def substrB (needle hay : String) : Bool := decide (needle.data <:+: hay.data)

/-- `_score` from `src/agents/scout.py:59-62`: one point per configured
keyword occurring case-insensitively in `title + " " + summary`
(each keyword counted at most once). -/
def score_ (keywords : List String) (a : Article) : ℚ :=
  ((keywords.map (fun kw => lowerStr kw)).filter
    (fun kw => substrB kw (lowerStr (a.title ++ " " ++ a.summary)))).length

/-- The in-place score update `a.score += _score(a, config)` performed by
`collect` on each deduplicated article (`src/agents/scout.py:160`). -/
def bumpScore (keywords : List String) (a : Article) : Article :=
  { a with score := a.score + score_ keywords a }

/-- The dedup-and-score loop of `collect` (`src/agents/scout.py:154-161`):
walk the fetched articles, keeping an article iff its url is not yet seen
in this run, non-empty, and not in the persisted seen-urls set; kept
articles get their keyword score added. `seen` is the accumulator set. -/
def dedupAux (keywords : List String) (seen_urls : List String) :
    List String → List Article → List Article
  | _, [] => []
  | seen, a :: rest =>
    if a.url ∉ seen ∧ a.url ≠ "" ∧ a.url ∉ seen_urls then
      bumpScore keywords a :: dedupAux keywords seen_urls (a.url :: seen) rest
    else
      dedupAux keywords seen_urls seen rest

/-- The `unique` list computed by `collect` (`src/agents/scout.py:154-161`). -/
def dedupScore (keywords : List String) (seen_urls : List String)
    (articles : List Article) : List Article :=
  dedupAux keywords seen_urls [] articles

/-- The sort key of `collect`: `(a.score, a.published_at)`, compared
lexicographically. `keyLT a b` holds when `a`'s key is strictly below
`b`'s. -/
def keyLT (a b : Article) : Bool :=
  decide (a.score < b.score ∨ (a.score = b.score ∧ a.published_at < b.published_at))

/-- Insert into a descending-sorted list, after all entries with a key
at least as large (so equal keys keep their original relative order). -/
def insertDesc (a : Article) : List Article → List Article
  | [] => [a]
  | b :: t => if keyLT a b then b :: insertDesc a t else a :: b :: t

/-- `unique.sort(key=lambda a: (a.score, a.published_at), reverse=True)`
(`src/agents/scout.py:164`): Python's sort is stable, and `reverse=True`
yields the list in descending key order with ties kept in original order;
this stable insertion sort has exactly that extension. -/
def sortDesc : List Article → List Article
  | [] => []
  | a :: t => insertDesc a (sortDesc t)

/-- The greedy capped-selection loop of `collect`
(`src/agents/scout.py:165-176`). `counts` models the `source_counts` dict
(`dict.get(source, 0)` is the function's default `0`), `selLen` the current
`len(selected)`; the `break` at `len(selected) >= max_n` is the first
branch. -/
def selectLoop (max_n max_per_source : Nat) :
    List Article → (String → Nat) → Nat → List Article
  | [], _, _ => []
  | a :: rest, counts, selLen =>
    if max_n ≤ selLen then []
    else if counts a.source < max_per_source then
      a :: selectLoop max_n max_per_source rest
        (fun s => if s = a.source then counts s + 1 else counts s) (selLen + 1)
    else
      selectLoop max_n max_per_source rest counts selLen

/-- The selection-relevant part of the configuration document
(`config/sources.yml` as read by `collect`). -/
structure Config where
  keywords : List String
  hours_lookback : Int
  max_articles : Nat
  max_per_source : Nat
deriving Repr, DecidableEq

/-- The pure tail of `collect` (`src/agents/scout.py:152-188`): dedup
against the run-local set and the persisted seen-urls, score, sort, and
select with the per-source cap. -/
def collectSelect (cfg : Config) (seen_urls : List String)
    (all_articles : List Article) : List Article :=
  selectLoop cfg.max_articles cfg.max_per_source
    (sortDesc (dedupScore cfg.keywords seen_urls all_articles))
    (fun _ => 0) 0

/-- One RSS entry as seen by `fetch_rss` after `feedparser` has parsed the
feed: each field is `none` when absent (Python `entry.get(...)` returning
a falsy value). Publication times are the already-converted timestamps. -/
structure RssEntry where
  published_parsed : Option Int
  updated_parsed : Option Int
  title : Option String
  link : Option String
  summary : Option String
deriving Repr, DecidableEq

/-- A feed configuration entry (`feed_cfg` dict): `weight` is `none` when
the key is absent (`feed_cfg.get("weight", 1.0)` then defaults to `1.0`). -/
structure FeedCfg where
  name : String
  url : String
  weight : Option ℚ
deriving Repr, DecidableEq

/-- `entry.get("published_parsed") or entry.get("updated_parsed")`
(`src/agents/scout.py:107`). -/
def resolvedPub (e : RssEntry) : Option Int :=
  match e.published_parsed with
  | some t => some t
  | none => e.updated_parsed

/-- `fetch_rss` (`src/agents/scout.py:101-124`), with the downloaded and
feedparser-parsed entries supplied as input. Entries with no resolvable
publication time are skipped; entries older than the cutoff are skipped;
everything else becomes an `Article` whose url is `entry.get("link") or ""`
and whose base score is the feed's configured weight (default `1.0`). -/
def fetch_rss (feed_cfg : FeedCfg) (entries : List RssEntry)
    (now : Int) (hours : Int) : List Article :=
  entries.filterMap (fun e =>
    match resolvedPub e with
    | none => none
    | some pub =>
      if pub < now - hours * 3600 then none
      else some
        { title := e.title.getD ""
          url := e.link.getD ""
          summary := e.summary.getD ""
          published_at := pub
          source := feed_cfg.name
          score := feed_cfg.weight.getD 1
          origin := "RSS" })

/-- One item of the NewsAPI JSON response as consumed by `fetch_newsapi`;
`publishedAt` is `none` when the date string failed to parse (the
`except` branch skipping the item), otherwise the parsed timestamp. -/
structure NewsItem where
  url : Option String
  title : Option String
  description : Option String
  content : Option String
  source_name : Option String
  publishedAt : Option Int
deriving Repr, DecidableEq

/-- Python `a or b` for optional strings (both `None` and `""` are falsy). -/
def strOr (a : Option String) (b : String) : String :=
  match a with
  | some s => if s = "" then b else s
  | none => b

/-- `fetch_newsapi` (`src/agents/scout.py:65-98`), with the HTTP response
items supplied as input. Items with a falsy url or a title containing
`[Removed]` or an unparseable date are skipped; articles get the default
base score `0.0` and origin `NewsAPI`. -/
def fetch_newsapi (items : List NewsItem) : List Article :=
  items.filterMap (fun it =>
    match it.url with
    | none => none
    | some u =>
      if u = "" then none
      else if substrB "[Removed]" (it.title.getD "") then none
      else
        match it.publishedAt with
        | none => none
        | some pub => some
          { title := it.title.getD ""
            url := u
            summary := strOr it.description (strOr it.content "")
            published_at := pub
            source := it.source_name.getD "NewsAPI"
            score := 0
            origin := "NewsAPI" })

/-- The concatenated fetch results inside `collect`
(`src/agents/scout.py:134-149`): NewsAPI articles first (empty when no API
key or the request failed), then the RSS feeds in registry order (a feed
whose fetch raised contributes nothing and is simply absent here). -/
def fetchedAll (newsItems : List NewsItem)
    (feeds : List (FeedCfg × List RssEntry)) (now : Int) (hours : Int) :
    List Article :=
  fetch_newsapi newsItems ++
    feeds.flatMap (fun p => fetch_rss p.1 p.2 now hours)

/-- `collect` (`src/agents/scout.py:127-188`): fetch everything, then
dedup, score, sort and select. -/
def collect (cfg : Config) (newsItems : List NewsItem)
    (feeds : List (FeedCfg × List RssEntry)) (seen_urls : List String)
    (now : Int) : List Article :=
  collectSelect cfg seen_urls (fetchedAll newsItems feeds now cfg.hours_lookback)

/-!
Embedding of `src/scripts/maintain_feeds.py`: feed health tracking,
eviction, URL repair and feed discovery. Feed descriptors are modelled by
value; Python mutates the shared descriptor dict in place, which for a
roster without duplicate descriptors coincides with replacing the equal
value in the roster list.
-/

/-- A source descriptor from the registry (`rss_feeds` entry of
`config/sources.yml`); `language` and `weight` are `none` when absent. -/
structure Feed where
  name : String
  url : String
  language : Option String
  weight : Option ℚ
deriving Repr, DecidableEq

/-- One value of the health store (`config/feed_health.json`): the dict
`{"fail_count": …, "last_success": …, "last_failure": …, "name": …}`.
`fail_count` is a Python int, modelled as `Int`; `last_failure` is absent
(`none`) until the first recorded failure. -/
structure HealthRecord where
  fail_count : Int
  last_success : Option Int
  last_failure : Option Int
  name : String
deriving Repr, DecidableEq

/-- The health store: a url-keyed dict, modelled as an association list. -/
abbrev Health := List (String × HealthRecord)

/-- Dict lookup `health[url]` / `url in health`. -/
def hget : Health → String → Option HealthRecord
  | [], _ => none
  | (k, v) :: t, u => if k = u then some v else hget t u

/-- Dict update `health[url] = record` (replace in place, else append). -/
def hset : Health → String → HealthRecord → Health
  | [], u, r => [(u, r)]
  | (k, v) :: t, u, r => if k = u then (k, r) :: t else (k, v) :: hset t u r

/-- Dict deletion `del health[url]`. -/
def hdel (h : Health) (u : String) : Health :=
  h.filter (fun p => p.1 ≠ u)

/-- The per-feed body of the probe loop in `run_health_checks`
(`src/scripts/maintain_feeds.py:98-117`): a live feed's record is reset to
`fail_count = 0` with `last_success = now` (created if absent); a dead
feed first gets a zero record if absent, then `fail_count` is incremented
and `last_failure` set. `alive` is the result of `check_feed_health`. -/
def probeStep (now : Int) (health : Health) (feed : Feed) (alive : Bool) :
    Health :=
  if alive then
    match hget health feed.url with
    | some r =>
      hset health feed.url
        { r with fail_count := 0, last_success := some now }
    | none =>
      hset health feed.url
        { fail_count := 0, last_success := some now, last_failure := none
          name := feed.name }
  else
    let h1 :=
      match hget health feed.url with
      | some _ => health
      | none =>
        hset health feed.url
          { fail_count := 0, last_success := none, last_failure := none
            name := feed.name }
    match hget h1 feed.url with
    | some r =>
      hset h1 feed.url
        { r with fail_count := r.fail_count + 1, last_failure := some now }
    | none => h1

/-- The whole probe loop of `run_health_checks`, also collecting
`failed_feeds` in probe order. -/
def healthLoop (now : Int) (alive : Feed → Bool) :
    List Feed → Health → Health × List Feed
  | [], health => (health, [])
  | f :: fs, health =>
    let p := healthLoop now alive fs (probeStep now health f (alive f))
    (p.1, if alive f then p.2 else f :: p.2)

/-- `run_health_checks` (`src/scripts/maintain_feeds.py:88-131`): probe
every feed, then compute `to_remove` (feeds whose updated record has
`fail_count >= max_fail`) and, outside dry-run, drop them from the roster.
Returns `(updated_feeds, updated_health, failed_feeds)`. -/
def run_health_checks (now : Int) (alive : Feed → Bool) (feeds : List Feed)
    (health : Health) (max_fail : Int) (dry_run : Bool) :
    List Feed × Health × List Feed :=
  let probed := healthLoop now alive feeds health
  let to_remove := feeds.filter (fun f =>
    match hget probed.1 f.url with
    | some r => decide (max_fail ≤ r.fail_count)
    | none => false)
  let feeds' :=
    if to_remove ≠ [] ∧ ¬dry_run then feeds.filter (fun f => f ∉ to_remove)
    else feeds
  (feeds', probed.1, probed.2)

/-- The per-feed body of the URL-repair loop in `run_grounding_maintenance`
(`src/scripts/maintain_feeds.py:233-253`). `new_url` is the oracle answer
of `search_new_feed_url` (`none` for no answer / `NOT_FOUND` / no
extractable URL). Mirrors the source line order: the descriptor's `url`
is overwritten FIRST, after which `feed.get("url")` reads the new url, so
the conditional `del` targets the new key (immediately re-created), and
the record keyed by the old url is left in the store. -/
def repair_step (now : Int) (dry_run : Bool) (roster : List Feed)
    (health : Health) (feed : Feed) (new_url : Option String) :
    List Feed × Health :=
  if feed ∉ roster then (roster, health)
  else
    match new_url with
    | none => (roster, health)
    | some nu =>
      if nu ≠ "" ∧ nu ≠ feed.url then
        if dry_run then (roster, health)
        else
          let feed' := { feed with url := nu }
          let roster' := roster.map (fun g => if g = feed then feed' else g)
          let h1 :=
            if (hget health feed'.url).isSome then hdel health feed'.url
            else health
          let h2 := hset h1 nu
            { fail_count := 0, last_success := some now
              last_failure := none, name := feed'.name }
          (roster', h2)
      else (roster, health)

/-- A JSON value, as produced by `json.loads` on the oracle response. -/
inductive Json where
  | null : Json
  | bool (b : Bool) : Json
  | num (q : ℚ) : Json
  | str (s : String) : Json
  | arr (items : List Json) : Json
  | obj (fields : List (String × Json)) : Json

/-- The Python exceptions relevant to `discover_new_feeds`: `float(x)`
raises `ValueError` on a non-numeric string and `TypeError` on `None`,
lists and dicts; only `ValueError` (and `json.JSONDecodeError`) is caught
by the surrounding `except` clause. -/
inductive PyErr where
  | typeError : PyErr
  | valueError : PyErr
deriving Repr, DecidableEq

/-- Key lookup in a JSON object (`f["name"]`, `"name" in f`). -/
def jget : List (String × Json) → String → Option Json
  | [], _ => none
  | (k, v) :: t, u => if k = u then some v else jget t u

/-- A simple decimal-literal reader: Python `float(s)` on strings accepts
(among other forms) an optional sign followed by digits with an optional
fractional part; strings outside the accepted forms raise `ValueError`.
Modelled here for the digit-string core of that grammar. -/
def decDigits : List Char → Option ℚ
  | [] => none
  | cs =>
    cs.foldl (fun acc c =>
      match acc with
      | none => none
      | some q => if c.isDigit then some (q * 10 + (c.toNat - 48 : ℕ)) else none)
      (some 0)

/-- Python builtin `float(x)` on a JSON-decoded value: numbers and bools
convert; numeric strings parse (`ValueError` otherwise); `None`, lists and
dicts raise `TypeError`. -/
def pyFloat : Json → Except PyErr ℚ
  | .num q => .ok q
  | .bool b => .ok (if b then 1 else 0)
  | .str s =>
    match s.data.splitOn '.' with
    | [w] =>
      match decDigits w with
      | some q => .ok q
      | none => .error .valueError
    | [w, f] =>
      match decDigits w, decDigits f with
      | some qw, some qf => .ok (qw + qf / (10 ^ f.length))
      | _, _ => .error .valueError
    | _ => .error .valueError
  | .null => .error .typeError
  | .arr _ => .error .typeError
  | .obj _ => .error .typeError

/-- A candidate feed built by `discover_new_feeds` for a valid item:
`{"name": f["name"], "url": f["url"], "language": language,
"weight": float(f.get("weight", 1.0))}`. The `name` and `url` values are
carried over verbatim (any JSON shape). -/
structure FeedCand where
  name : Json
  url : Json
  language : String
  weight : ℚ

/-- The item loop of `discover_new_feeds`
(`src/scripts/maintain_feeds.py:205-213`): non-dict items and items
missing `name` or `url` are skipped; for kept items
`float(f.get("weight", 1.0))` may raise, which aborts the loop. -/
def discoverItems (language : String) : List Json → Except PyErr (List FeedCand)
  | [] => .ok []
  | j :: rest =>
    match j with
    | .obj kvs =>
      if (jget kvs "name").isSome ∧ (jget kvs "url").isSome then
        match pyFloat ((jget kvs "weight").getD (.num 1)) with
        | .ok w =>
          match discoverItems language rest with
          | .ok tail => .ok
            ({ name := (jget kvs "name").getD .null
               url := (jget kvs "url").getD .null
               language := language, weight := w } :: tail)
          | .error e => .error e
        | .error e => .error e
      else discoverItems language rest
    | _ => discoverItems language rest

/-- `discover_new_feeds` (`src/scripts/maintain_feeds.py:178-217`) after
the oracle call, fence-stripping and `json.loads`; `parsed` is the parse
result (`none` models a `json.JSONDecodeError`, caught and yielding `[]`).
A non-list JSON value falls through to the final `return []`. The
`except (json.JSONDecodeError, ValueError)` clause converts a `ValueError`
raised inside the loop into `[]`; a `TypeError` is not caught and
propagates to the caller. -/
def discover_new_feeds (language : String) (parsed : Option Json) :
    Except PyErr (List FeedCand) :=
  match parsed with
  | none => .ok []
  | some (.arr items) =>
    match discoverItems language items with
    | .error .valueError => .ok []
    | other => other
  | some _ => .ok []

/-!
Lemmas about the selection pipeline.
-/

theorem mem_dedupAux (kws su : List String) :
    ∀ (l : List Article) (seen : List String) (a : Article),
      a ∈ dedupAux kws su seen l →
        a.url ∉ seen ∧ a.url ≠ "" ∧ a.url ∉ su := by
  intro l
  induction l with
  | nil => intro seen a h; simp [dedupAux] at h
  | cons b rest ih =>
    intro seen a h
    rw [dedupAux] at h
    split at h
    · rename_i hc
      rcases List.mem_cons.mp h with h1 | h1
      · subst h1
        simpa [bumpScore] using hc
      · have hr := ih (b.url :: seen) a h1
        exact ⟨fun hmem => hr.1 (List.mem_cons_of_mem _ hmem), hr.2.1, hr.2.2⟩
    · exact ih seen a h

theorem dedupAux_nodup (kws su : List String) :
    ∀ (l : List Article) (seen : List String),
      ((dedupAux kws su seen l).map (fun a => a.url)).Nodup := by
  intro l
  induction l with
  | nil => intro seen; simp [dedupAux]
  | cons b rest ih =>
    intro seen
    rw [dedupAux]
    split
    · rename_i hc
      simp only [List.map_cons, List.nodup_cons]
      refine ⟨?_, ih _⟩
      intro hmem
      rcases List.mem_map.mp hmem with ⟨x, hx, hxe⟩
      have hxs := (mem_dedupAux kws su rest (b.url :: seen) x hx).1
      apply hxs
      have hxu : x.url = b.url := by simpa [bumpScore] using hxe
      rw [hxu]
      exact List.mem_cons_self _ _
    · exact ih _

theorem mem_dedupAux_find (kws su : List String) :
    ∀ (l : List Article) (seen : List String) (a : Article),
      a ∈ dedupAux kws su seen l →
        ∃ a₀, l.find? (fun x => x.url == a.url) = some a₀ ∧
          a = bumpScore kws a₀ := by
  intro l
  induction l with
  | nil => intro seen a h; simp [dedupAux] at h
  | cons b rest ih =>
    intro seen a h
    rw [dedupAux] at h
    split at h
    · rename_i hc
      rcases List.mem_cons.mp h with h1 | h1
      · refine ⟨b, ?_, h1⟩
        have hb : (b.url == a.url) = true := by
          rw [h1]; simp [bumpScore]
        simp [List.find?, hb]
      · rcases ih _ a h1 with ⟨a₀, hfind, hbump⟩
        refine ⟨a₀, ?_, hbump⟩
        have hne : (b.url == a.url) = false := by
          have hx := (mem_dedupAux kws su rest (b.url :: seen) a h1).1
          simp only [beq_eq_false_iff_ne, ne_eq]
          intro hEq
          exact hx (by rw [← hEq]; exact List.mem_cons_self _ _)
        simp [List.find?, hne, hfind]
    · rename_i hc
      rcases ih _ a h with ⟨a₀, hfind, hbump⟩
      refine ⟨a₀, ?_, hbump⟩
      have ha := mem_dedupAux kws su rest seen a h
      have hne : (b.url == a.url) = false := by
        simp only [beq_eq_false_iff_ne, ne_eq]
        intro hEq
        exact hc (by rw [hEq]; exact ⟨ha.1, ha.2.1, ha.2.2⟩)
      simp [List.find?, hne, hfind]

theorem insertDesc_perm (a : Article) (l : List Article) :
    List.Perm (insertDesc a l) (a :: l) := by
  induction l with
  | nil => exact List.Perm.refl _
  | cons b t ih =>
    rw [insertDesc]
    split
    · exact (ih.cons b).trans (List.Perm.swap a b t)
    · exact List.Perm.refl _

theorem sortDesc_perm (l : List Article) : List.Perm (sortDesc l) l := by
  induction l with
  | nil => exact List.Perm.refl _
  | cons a t ih => exact (insertDesc_perm a (sortDesc t)).trans (ih.cons a)

theorem selectLoop_sublist (N M : Nat) :
    ∀ (l : List Article) (counts : String → Nat) (n : Nat),
      List.Sublist (selectLoop N M l counts n) l := by
  intro l
  induction l with
  | nil => intro counts n; simp [selectLoop]
  | cons a rest ih =>
    intro counts n
    rw [selectLoop]
    split
    · exact List.nil_sublist _
    · split
      · exact List.Sublist.cons₂ a (ih _ _)
      · exact List.Sublist.cons a (ih _ _)

theorem selectLoop_length (N M : Nat) :
    ∀ (l : List Article) (counts : String → Nat) (n : Nat),
      (selectLoop N M l counts n).length ≤ N - n := by
  intro l
  induction l with
  | nil => intro counts n; simp [selectLoop]
  | cons a rest ih =>
    intro counts n
    rw [selectLoop]
    split
    · simp
    · rename_i hn
      split
      · have hr := ih (fun s => if s = a.source then counts s + 1 else counts s) (n + 1)
        simp only [List.length_cons]
        omega
      · exact ih counts n

theorem selectLoop_countP (N M : Nat) (s : String) :
    ∀ (l : List Article) (counts : String → Nat) (n : Nat),
      (selectLoop N M l counts n).countP (fun a => a.source == s) ≤ M - counts s := by
  intro l
  induction l with
  | nil => intro counts n; simp [selectLoop]
  | cons a rest ih =>
    intro counts n
    rw [selectLoop]
    split
    · simp
    · split
      · rename_i hcnt
        rw [List.countP_cons]
        have hr := ih (fun t => if t = a.source then counts t + 1 else counts t) (n + 1)
        by_cases hs : a.source = s
        · have hps : (a.source == s) = true := by simp [hs]
          rw [if_pos hs.symm] at hr
          have hlt : counts s < M := hs ▸ hcnt
          simp only [hps, if_true]
          omega
        · have hps : (a.source == s) = false := by simp [hs]
          have hsne : ¬ s = a.source := fun h => hs h.symm
          rw [if_neg hsne] at hr
          simp only [hps, show (if (false = true) then 1 else 0) = 0 from rfl]
          omega
      · exact ih counts n

theorem mem_collect {cfg : Config} {newsItems : List NewsItem}
    {feeds : List (FeedCfg × List RssEntry)} {seen_urls : List String}
    {now : Int} {a : Article}
    (ha : a ∈ collect cfg newsItems feeds seen_urls now) :
    a ∈ dedupScore cfg.keywords seen_urls
      (fetchedAll newsItems feeds now cfg.hours_lookback) := by
  have h1 : a ∈ sortDesc (dedupScore cfg.keywords seen_urls
      (fetchedAll newsItems feeds now cfg.hours_lookback)) :=
    (selectLoop_sublist cfg.max_articles cfg.max_per_source _ _ _).subset ha
  exact (sortDesc_perm _).mem_iff.mp h1

/-!
Lemmas about the health store and the health-check loop.
-/

theorem hget_hset_self (h : Health) (k : String) (r : HealthRecord) :
    hget (hset h k r) k = some r := by
  induction h with
  | nil => simp [hset, hget]
  | cons p t ih =>
    rw [hset]
    split
    · rename_i hk
      rw [hget, if_pos hk]
    · rename_i hk
      rw [hget, if_neg hk]
      exact ih

theorem hget_hset_ne (h : Health) (k u : String) (r : HealthRecord)
    (hne : k ≠ u) : hget (hset h k r) u = hget h u := by
  induction h with
  | nil => simp [hset, hget, hne]
  | cons p t ih =>
    rw [hset]
    split
    · rename_i hk
      rw [hget, hget]
      subst hk
      rw [if_neg hne, if_neg hne]
    · rw [hget, hget]
      split
      · rfl
      · exact ih

theorem hget_mem (h : Health) (u : String) (r : HealthRecord)
    (hr : hget h u = some r) : (u, r) ∈ h := by
  induction h with
  | nil => simp [hget] at hr
  | cons p t ih =>
    rw [hget] at hr
    split at hr
    · rename_i hk
      cases hr
      rw [← hk]
      exact List.mem_cons_self _ _
    · exact List.mem_cons_of_mem _ (ih hr)

theorem mem_hset (h : Health) (k : String) (r : HealthRecord)
    (p : String × HealthRecord) (hp : p ∈ hset h k r) :
    p = (k, r) ∨ p ∈ h := by
  induction h with
  | nil => simpa [hset] using hp
  | cons q t ih =>
    rw [hset] at hp
    split at hp
    · rename_i hk
      rcases List.mem_cons.mp hp with h1 | h1
      · left; rw [h1, hk]
      · right; exact List.mem_cons_of_mem _ h1
    · rcases List.mem_cons.mp hp with h1 | h1
      · right; rw [h1]; exact List.mem_cons_self _ _
      · rcases ih h1 with h2 | h2
        · left; exact h2
        · right; exact List.mem_cons_of_mem _ h2

theorem probeStep_hget_isSome (now : Int) (health : Health) (feed : Feed)
    (alive : Bool) :
    (hget (probeStep now health feed alive) feed.url).isSome := by
  rcases alive with _ | _
  · rcases hh : hget health feed.url with _ | r
    · simp [probeStep, hh, hget_hset_self]
    · simp [probeStep, hh, hget_hset_self]
  · rcases hh : hget health feed.url with _ | r
    · simp [probeStep, hh, hget_hset_self]
    · simp [probeStep, hh, hget_hset_self]

theorem probeStep_isSome_mono (now : Int) (health : Health) (feed : Feed)
    (alive : Bool) (u : String) (hu : (hget health u).isSome) :
    (hget (probeStep now health feed alive) u).isSome := by
  by_cases hku : feed.url = u
  · subst hku
    exact probeStep_hget_isSome now health feed alive
  · rcases alive with _ | _
    · rcases hh : hget health feed.url with _ | r
      · simp [probeStep, hh, hget_hset_self, hget_hset_ne, hku, hu]
      · simp [probeStep, hh, hget_hset_self, hget_hset_ne, hku, hu]
    · rcases hh : hget health feed.url with _ | r
      · simp [probeStep, hh, hget_hset_ne, hku, hu]
      · simp [probeStep, hh, hget_hset_ne, hku, hu]

theorem healthLoop_isSome_mono (now : Int) (alive : Feed → Bool) :
    ∀ (fs : List Feed) (h : Health) (u : String),
      (hget h u).isSome → (hget (healthLoop now alive fs h).1 u).isSome := by
  intro fs
  induction fs with
  | nil => intro h u hu; simpa [healthLoop] using hu
  | cons f t ih =>
    intro h u hu
    exact ih _ u (probeStep_isSome_mono now h f (alive f) u hu)

theorem healthLoop_mem_isSome (now : Int) (alive : Feed → Bool) :
    ∀ (fs : List Feed) (h : Health) (f : Feed), f ∈ fs →
      (hget (healthLoop now alive fs h).1 f.url).isSome := by
  intro fs
  induction fs with
  | nil => intro h f hf; simp at hf
  | cons g t ih =>
    intro h f hf
    rcases List.mem_cons.mp hf with h1 | h1
    · subst h1
      exact healthLoop_isSome_mono now alive t _ f.url
        (probeStep_hget_isSome now h f (alive f))
    · exact ih _ f h1

theorem run_health_checks_mem_iff (now : Int) (alive : Feed → Bool)
    (feeds : List Feed) (health : Health) (max_fail : Int) (f : Feed)
    (hf : f ∈ feeds) (r : HealthRecord)
    (hr : hget (healthLoop now alive feeds health).1 f.url = some r) :
    (f ∈ (run_health_checks now alive feeds health max_fail false).1 ↔
      r.fail_count < max_fail) := by
  have hP : (fun g : Feed =>
      match hget (healthLoop now alive feeds health).1 g.url with
      | some r => decide (max_fail ≤ r.fail_count)
      | none => false) f = decide (max_fail ≤ r.fail_count) := by
    simp only [hr]
  by_cases hrem : feeds.filter (fun g : Feed =>
      match hget (healthLoop now alive feeds health).1 g.url with
      | some r => decide (max_fail ≤ r.fail_count)
      | none => false) = []
  · have hPf : ¬ ((fun g : Feed =>
        match hget (healthLoop now alive feeds health).1 g.url with
        | some r => decide (max_fail ≤ r.fail_count)
        | none => false) f = true) := by
      intro hPf
      have hmem : f ∈ feeds.filter (fun g : Feed =>
          match hget (healthLoop now alive feeds health).1 g.url with
          | some r => decide (max_fail ≤ r.fail_count)
          | none => false) := List.mem_filter.mpr ⟨hf, hPf⟩
      rw [hrem] at hmem
      simp at hmem
    rw [hP] at hPf
    have hlt : r.fail_count < max_fail := by
      simp only [decide_eq_true_eq] at hPf
      omega
    have hfeeds : (run_health_checks now alive feeds health max_fail false).1 = feeds := by
      simp only [run_health_checks]
      rw [if_neg]
      intro hcond
      exact hcond.1 hrem
    rw [hfeeds]
    exact iff_of_true hf hlt
  · have hfeeds : (run_health_checks now alive feeds health max_fail false).1 =
        feeds.filter (fun g => g ∉ feeds.filter (fun g : Feed =>
          match hget (healthLoop now alive feeds health).1 g.url with
          | some r => decide (max_fail ≤ r.fail_count)
          | none => false)) := by
      simp only [run_health_checks]
      rw [if_pos]
      exact ⟨hrem, by simp⟩
    rw [hfeeds]
    constructor
    · intro hmem
      by_contra hge
      have h2 := (List.mem_filter.mp hmem).2
      simp only [decide_eq_true_eq] at h2
      apply h2
      refine List.mem_filter.mpr ⟨hf, ?_⟩
      simp only [hr, decide_eq_true_eq]
      omega
    · intro hlt
      refine List.mem_filter.mpr ⟨hf, ?_⟩
      simp only [decide_eq_true_eq]
      intro hmem
      have h2 := (List.mem_filter.mp hmem).2
      simp only [hr, decide_eq_true_eq] at h2
      omega

/-!
The claims.
-/

/-- C1: every run of the selection operation `collect` returns at most
`max_articles` articles, and for every source name the number of returned
articles from that source is at most `max_per_source`. -/
theorem claim_C1_caps (cfg : Config) (newsItems : List NewsItem)
    (feeds : List (FeedCfg × List RssEntry)) (seen_urls : List String)
    (now : Int) :
    (collect cfg newsItems feeds seen_urls now).length ≤ cfg.max_articles ∧
    ∀ s : String,
      ((collect cfg newsItems feeds seen_urls now).countP
        (fun a => a.source == s)) ≤ cfg.max_per_source := by
  have heq : collect cfg newsItems feeds seen_urls now =
      selectLoop cfg.max_articles cfg.max_per_source
        (sortDesc (dedupScore cfg.keywords seen_urls
          (fetchedAll newsItems feeds now cfg.hours_lookback)))
        (fun _ => 0) 0 := rfl
  constructor
  · have h := selectLoop_length cfg.max_articles cfg.max_per_source
      (sortDesc (dedupScore cfg.keywords seen_urls
        (fetchedAll newsItems feeds now cfg.hours_lookback))) (fun _ => 0) 0
    rw [heq]
    omega
  · intro s
    have h := selectLoop_countP cfg.max_articles cfg.max_per_source s
      (sortDesc (dedupScore cfg.keywords seen_urls
        (fetchedAll newsItems feeds now cfg.hours_lookback))) (fun _ => 0) 0
    rw [heq]
    omega

/-- C2: no article whose url is in the persisted seen-urls set at selection
time is ever returned by `collect`. -/
theorem claim_C2_history (cfg : Config) (newsItems : List NewsItem)
    (feeds : List (FeedCfg × List RssEntry)) (seen_urls : List String)
    (now : Int) (u : String) (hu : u ∈ seen_urls) (a : Article)
    (ha : a ∈ collect cfg newsItems feeds seen_urls now) : a.url ≠ u := by
  have h := mem_dedupAux cfg.keywords seen_urls
    (fetchedAll newsItems feeds now cfg.hours_lookback) [] a (mem_collect ha)
  intro hEq
  exact h.2.2 (hEq ▸ hu)

/-- C3: the urls returned by `collect` are pairwise distinct, and every
returned article is the first-fetched article bearing its url (in fetch
order over the concatenated fetch results), with its keyword score added
on top of its base score. -/
theorem claim_C3_dedup (cfg : Config) (newsItems : List NewsItem)
    (feeds : List (FeedCfg × List RssEntry)) (seen_urls : List String)
    (now : Int) :
    ((collect cfg newsItems feeds seen_urls now).map (fun a => a.url)).Nodup ∧
    ∀ a ∈ collect cfg newsItems feeds seen_urls now,
      ∃ a₀, (fetchedAll newsItems feeds now cfg.hours_lookback).find?
          (fun x => x.url == a.url) = some a₀ ∧
        a = bumpScore cfg.keywords a₀ := by
  constructor
  · have hD := dedupAux_nodup cfg.keywords seen_urls
      (fetchedAll newsItems feeds now cfg.hours_lookback) []
    have hperm := (sortDesc_perm (dedupScore cfg.keywords seen_urls
      (fetchedAll newsItems feeds now cfg.hours_lookback))).map (fun a => a.url)
    have hS := hperm.nodup_iff.mpr hD
    have hsub := (selectLoop_sublist cfg.max_articles cfg.max_per_source
      (sortDesc (dedupScore cfg.keywords seen_urls
        (fetchedAll newsItems feeds now cfg.hours_lookback)))
      (fun _ => 0) 0).map (fun a => a.url)
    exact hS.sublist hsub
  · intro a ha
    exact mem_dedupAux_find cfg.keywords seen_urls
      (fetchedAll newsItems feeds now cfg.hours_lookback) [] a (mem_collect ha)

/-- C7: the final score of every selected article is its base score (the
source's configured weight, default `1.0`, for feed articles; `0.0` for
search-API articles) plus one point per configured keyword occurring
case-insensitively in title-plus-summary, each keyword counted once. -/
theorem claim_C7_score :
    (∀ (fc : FeedCfg) (es : List RssEntry) (now hours : Int) (a : Article),
      a ∈ fetch_rss fc es now hours → a.score = fc.weight.getD 1) ∧
    (∀ (items : List NewsItem) (a : Article),
      a ∈ fetch_newsapi items → a.score = 0) ∧
    (∀ (cfg : Config) (newsItems : List NewsItem)
      (feeds : List (FeedCfg × List RssEntry)) (seen_urls : List String)
      (now : Int) (a : Article), a ∈ collect cfg newsItems feeds seen_urls now →
      ∃ a₀ ∈ fetchedAll newsItems feeds now cfg.hours_lookback,
        a₀.url = a.url ∧ a.score = a₀.score + score_ cfg.keywords a₀) := by
  refine ⟨?_, ?_, ?_⟩
  · intro fc es now hours a ha
    simp only [fetch_rss, List.mem_filterMap] at ha
    rcases ha with ⟨e, he, hsome⟩
    split at hsome
    · simp at hsome
    · split at hsome
      · simp at hsome
      · simp only [Option.some.injEq] at hsome
        rw [← hsome]
  · intro items a ha
    simp only [fetch_newsapi, List.mem_filterMap] at ha
    rcases ha with ⟨it, hit, hsome⟩
    split at hsome
    · simp at hsome
    · split at hsome
      · simp at hsome
      · split at hsome
        · simp at hsome
        · split at hsome
          · simp at hsome
          · simp only [Option.some.injEq] at hsome
            rw [← hsome]
  · intro cfg newsItems feeds seen_urls now a ha
    rcases mem_dedupAux_find cfg.keywords seen_urls
        (fetchedAll newsItems feeds now cfg.hours_lookback) [] a
        (mem_collect ha) with ⟨a₀, hfind, hbump⟩
    refine ⟨a₀, List.mem_of_find?_eq_some hfind, ?_, ?_⟩
    · rw [hbump]; rfl
    · rw [hbump]; rfl

/-- C10: every article returned by `collect` has a non-empty url, even
though `fetch_rss` admits entries whose link is missing (as url `""`);
the dedup step of `collect` filters those out. -/
theorem claim_C10_url_nonempty (cfg : Config) (newsItems : List NewsItem)
    (feeds : List (FeedCfg × List RssEntry)) (seen_urls : List String)
    (now : Int) (a : Article)
    (ha : a ∈ collect cfg newsItems feeds seen_urls now) : a.url ≠ "" :=
  (mem_dedupAux cfg.keywords seen_urls
    (fetchedAll newsItems feeds now cfg.hours_lookback) [] a
    (mem_collect ha)).2.1

/-- C4: after a non-dry-run health-check run, a source descriptor is in
the resulting roster iff its (updated) health record's fail count is below
`max_fail`; in particular a record at `max_fail - 1` keeps its source in
the roster. -/
theorem claim_C4_eviction (now : Int) (alive : Feed → Bool) (feeds : List Feed)
    (health : Health) (max_fail : Int) (f : Feed) (hf : f ∈ feeds) :
    ∃ r : HealthRecord,
      hget (run_health_checks now alive feeds health max_fail false).2.1 f.url
        = some r ∧
      (f ∈ (run_health_checks now alive feeds health max_fail false).1 ↔
        r.fail_count < max_fail) ∧
      (r.fail_count = max_fail - 1 →
        f ∈ (run_health_checks now alive feeds health max_fail false).1) := by
  have hs := healthLoop_mem_isSome now alive feeds health f hf
  rcases hr : hget (healthLoop now alive feeds health).1 f.url with _ | r
  · rw [hr] at hs; simp at hs
  · have hiff := run_health_checks_mem_iff now alive feeds health max_fail f hf r hr
    refine ⟨r, hr, hiff, ?_⟩
    intro hEq
    exact hiff.mpr (by omega)

/-- C5: a single probe of `run_health_checks`: a successful probe resets
the record's fail count to exactly 0 and sets last_success; a failed probe
raises the fail count by exactly 1 over the prior count (0 when no record
existed) and sets last_failure; and nonnegativity of all stored fail
counts is preserved. -/
theorem claim_C5_probe (now : Int) (health : Health) (feed : Feed)
    (alive : Bool) :
    ∃ r' : HealthRecord,
      hget (probeStep now health feed alive) feed.url = some r' ∧
      (alive = true → r'.fail_count = 0 ∧ r'.last_success = some now) ∧
      (alive = false →
        r'.fail_count
          = ((hget health feed.url).elim 0 (fun r => r.fail_count)) + 1 ∧
        r'.last_failure = some now) ∧
      ((∀ p ∈ health, 0 ≤ p.2.fail_count) →
        ∀ p ∈ probeStep now health feed alive, 0 ≤ p.2.fail_count) := by
  rcases alive with _ | _
  · rcases hh : hget health feed.url with _ | r
    · have hstep : probeStep now health feed false =
          hset (hset health feed.url ⟨0, none, none, feed.name⟩) feed.url
            ⟨1, none, some now, feed.name⟩ := by
        simp [probeStep, hh, hget_hset_self]
      refine ⟨⟨1, none, some now, feed.name⟩, ?_, ?_, ?_, ?_⟩
      · rw [hstep, hget_hset_self]
      · intro h; simp at h
      · intro _
        exact ⟨by simp, rfl⟩
      · intro hnn p hp
        rw [hstep] at hp
        rcases mem_hset _ _ _ p hp with h1 | h1
        · rw [h1]
          show (0 : Int) ≤ 1
          omega
        · rcases mem_hset _ _ _ p h1 with h2 | h2
          · rw [h2]
          · exact hnn p h2
    · have hstep : probeStep now health feed false =
          hset health feed.url
            ⟨r.fail_count + 1, r.last_success, some now, r.name⟩ := by
        simp [probeStep, hh]
      refine ⟨⟨r.fail_count + 1, r.last_success, some now, r.name⟩, ?_, ?_, ?_, ?_⟩
      · rw [hstep, hget_hset_self]
      · intro h; simp at h
      · intro _
        exact ⟨rfl, rfl⟩
      · intro hnn p hp
        rw [hstep] at hp
        rcases mem_hset _ _ _ p hp with h1 | h1
        · rw [h1]
          show (0 : Int) ≤ r.fail_count + 1
          have h0 := hnn (feed.url, r) (hget_mem health feed.url r hh)
          simp only at h0
          omega
        · exact hnn p h1
  · rcases hh : hget health feed.url with _ | r
    · have hstep : probeStep now health feed true =
          hset health feed.url ⟨0, some now, none, feed.name⟩ := by
        simp [probeStep, hh]
      refine ⟨⟨0, some now, none, feed.name⟩, ?_, ?_, ?_, ?_⟩
      · rw [hstep, hget_hset_self]
      · intro _
        exact ⟨rfl, rfl⟩
      · intro h; simp at h
      · intro hnn p hp
        rw [hstep] at hp
        rcases mem_hset _ _ _ p hp with h1 | h1
        · rw [h1]
        · exact hnn p h1
    · have hstep : probeStep now health feed true =
          hset health feed.url ⟨0, some now, r.last_failure, r.name⟩ := by
        simp [probeStep, hh]
      refine ⟨⟨0, some now, r.last_failure, r.name⟩, ?_, ?_, ?_, ?_⟩
      · rw [hstep, hget_hset_self]
      · intro _
        exact ⟨rfl, rfl⟩
      · intro h; simp at h
      · intro hnn p hp
        rw [hstep] at hp
        rcases mem_hset _ _ _ p hp with h1 | h1
        · rw [h1]
        · exact hnn p h1

/-- C6: the bug. When the repair loop obtains a new working url for a
failed source (not dry-run), the descriptor's url is replaced and a fresh
record is created for the new url — but, because the descriptor's url is
overwritten before the `del`, the conditional deletion targets the NEW
key, and the health record keyed by the source's OLD url survives,
contradicting the specified deletion of the old record. Evaluated here at
a concrete failed feed with a prior record under the old url. -/
theorem claim_C6_old_record_kept :
    (repair_step 100 false [⟨"SrcA", "http://old", none, none⟩]
        [("http://old", ⟨2, none, some 50, "SrcA"⟩)]
        ⟨"SrcA", "http://old", none, none⟩ (some "http://new")).1 =
      [⟨"SrcA", "http://new", none, none⟩] ∧
    hget (repair_step 100 false [⟨"SrcA", "http://old", none, none⟩]
        [("http://old", ⟨2, none, some 50, "SrcA"⟩)]
        ⟨"SrcA", "http://old", none, none⟩ (some "http://new")).2 "http://old" =
      some ⟨2, none, some 50, "SrcA"⟩ ∧
    hget (repair_step 100 false [⟨"SrcA", "http://old", none, none⟩]
        [("http://old", ⟨2, none, some 50, "SrcA"⟩)]
        ⟨"SrcA", "http://old", none, none⟩ (some "http://new")).2 "http://new" =
      some ⟨0, some 100, none, "SrcA"⟩ := by
  with_unfolding_all decide

/-- C8: the bug. `discover_new_feeds` only catches `JSONDecodeError` and
`ValueError`; an item that has both a name and a url but carries a `null`
(or list/object) weight makes `float(f.get("weight", 1.0))` raise an
uncaught `TypeError`, so the function raises instead of returning the
valid items. Evaluated at a well-formed list whose single item has
`weight: null`. -/
theorem claim_C8_typeerror :
    discover_new_feeds "en"
      (some (.arr [.obj [("name", .str "GoodFeed"),
        ("url", .str "http://feed.example/rss"), ("weight", .null)]])) =
      .error .typeError := rfl

/-- C9 (counterexample): an entry with a resolvable publication time
inside the window but NO resolvable link is not dropped by `fetch_rss`;
it is returned with url `""`, contradicting the claim that link-less
entries are dropped. -/
theorem claim_C9_counterexample :
    (⟨some 1000, none, some "T", none, some "S"⟩ : RssEntry).link = none ∧
    fetch_rss ⟨"FeedX", "http://feedx", none⟩
      [⟨some 1000, none, some "T", none, some "S"⟩] 1000 24 =
      [⟨"T", "", "S", 1000, "FeedX", 1, "RSS"⟩] := ⟨rfl, rfl⟩

/-- C9 (amended): every article returned by `fetch_rss` has a resolvable
publication time no older than the lookback cutoff — entries without a
resolvable publication time or older than the cutoff are dropped — but an
entry without a resolvable link is kept, with url `""`. -/
theorem claim_C9_amended (fc : FeedCfg) (es : List RssEntry) (now hours : Int)
    (a : Article) (ha : a ∈ fetch_rss fc es now hours) :
    now - hours * 3600 ≤ a.published_at ∧
    ∃ e ∈ es, resolvedPub e = some a.published_at ∧ a.url = e.link.getD "" := by
  simp only [fetch_rss, List.mem_filterMap] at ha
  rcases ha with ⟨e, he, hsome⟩
  split at hsome
  · simp at hsome
  · rename_i pub hre
    split at hsome
    · simp at hsome
    · rename_i hc
      simp only [Option.some.injEq] at hsome
      constructor
      · rw [← hsome]
        show now - hours * 3600 ≤ pub
        omega
      · exact ⟨e, he, by rw [← hsome]; exact hre, by rw [← hsome]⟩

/-- Witness for C1 at a concrete run: one feed contributing two articles. -/
theorem claim_C1_witness :
    (collect ⟨[], 24, 5, 3⟩ []
      [(⟨"F1", "http://f1", none⟩,
        [⟨some 1000, none, some "A", some "http://a", some ""⟩,
         ⟨some 900, none, some "B", some "http://b", some ""⟩])] [] 1000).length ≤ 5 ∧
    (collect ⟨[], 24, 5, 3⟩ []
      [(⟨"F1", "http://f1", none⟩,
        [⟨some 1000, none, some "A", some "http://a", some ""⟩,
         ⟨some 900, none, some "B", some "http://b", some ""⟩])] [] 1000).countP
      (fun a => a.source == "F1") ≤ 3 :=
  ⟨(claim_C1_caps ⟨[], 24, 5, 3⟩ []
      [(⟨"F1", "http://f1", none⟩,
        [⟨some 1000, none, some "A", some "http://a", some ""⟩,
         ⟨some 900, none, some "B", some "http://b", some ""⟩])] [] 1000).1,
   (claim_C1_caps ⟨[], 24, 5, 3⟩ []
      [(⟨"F1", "http://f1", none⟩,
        [⟨some 1000, none, some "A", some "http://a", some ""⟩,
         ⟨some 900, none, some "B", some "http://b", some ""⟩])] [] 1000).2 "F1"⟩

/-- Witness for C2: a seen url is never returned; the non-seen article is. -/
theorem claim_C2_witness :
    (⟨"A", "http://a", "", 1000, "F1", 1, "RSS"⟩ : Article).url ≠ "http://s" :=
  claim_C2_history ⟨[], 24, 5, 3⟩ []
    [(⟨"F1", "http://f1", none⟩,
      [⟨some 1000, none, some "A", some "http://a", some ""⟩,
       ⟨some 900, none, some "S", some "http://s", some ""⟩])]
    ["http://s"] 1000 "http://s" (by decide)
    ⟨"A", "http://a", "", 1000, "F1", 1, "RSS"⟩ (by with_unfolding_all decide)

/-- Witness for C3: two feeds supply the same url; the selected article is
the first-fetched copy. -/
theorem claim_C3_witness :
    ∃ a₀, (fetchedAll []
        [(⟨"F1", "http://f1", none⟩,
          [⟨some 1000, none, some "A1", some "http://a", some ""⟩]),
         (⟨"F2", "http://f2", none⟩,
          [⟨some 950, none, some "A2", some "http://a", some ""⟩])]
        1000 24).find?
        (fun x => x.url ==
          (⟨"A1", "http://a", "", 1000, "F1", 1, "RSS"⟩ : Article).url) = some a₀ ∧
      (⟨"A1", "http://a", "", 1000, "F1", 1, "RSS"⟩ : Article) = bumpScore [] a₀ :=
  (claim_C3_dedup ⟨[], 24, 5, 3⟩ []
    [(⟨"F1", "http://f1", none⟩,
      [⟨some 1000, none, some "A1", some "http://a", some ""⟩]),
     (⟨"F2", "http://f2", none⟩,
      [⟨some 950, none, some "A2", some "http://a", some ""⟩])] [] 1000).2
    ⟨"A1", "http://a", "", 1000, "F1", 1, "RSS"⟩ (by with_unfolding_all decide)

/-- Witness for C4: a feed with two prior failures fails its third probe
and is evicted at `max_fail = 3`. -/
theorem claim_C4_witness :
    ∃ r : HealthRecord,
      hget (run_health_checks 100 (fun f => f.url == "http://ok")
          [⟨"Good", "http://ok", none, none⟩, ⟨"Bad", "http://bad", none, none⟩]
          [("http://bad", ⟨2, none, some 50, "Bad"⟩)] 3 false).2.1
        (⟨"Bad", "http://bad", none, none⟩ : Feed).url = some r ∧
      ((⟨"Bad", "http://bad", none, none⟩ : Feed) ∈
          (run_health_checks 100 (fun f => f.url == "http://ok")
            [⟨"Good", "http://ok", none, none⟩, ⟨"Bad", "http://bad", none, none⟩]
            [("http://bad", ⟨2, none, some 50, "Bad"⟩)] 3 false).1 ↔
        r.fail_count < 3) ∧
      (r.fail_count = 3 - 1 → (⟨"Bad", "http://bad", none, none⟩ : Feed) ∈
          (run_health_checks 100 (fun f => f.url == "http://ok")
            [⟨"Good", "http://ok", none, none⟩, ⟨"Bad", "http://bad", none, none⟩]
            [("http://bad", ⟨2, none, some 50, "Bad"⟩)] 3 false).1) :=
  claim_C4_eviction 100 (fun f => f.url == "http://ok")
    [⟨"Good", "http://ok", none, none⟩, ⟨"Bad", "http://bad", none, none⟩]
    [("http://bad", ⟨2, none, some 50, "Bad"⟩)] 3
    ⟨"Bad", "http://bad", none, none⟩ (by decide)

/-- Witness for C5: a failed probe against a record with two prior
failures. -/
theorem claim_C5_witness :
    ∃ r' : HealthRecord,
      hget (probeStep 100 [("http://bad", ⟨2, none, some 50, "Bad"⟩)]
          ⟨"Bad", "http://bad", none, none⟩ false)
        (⟨"Bad", "http://bad", none, none⟩ : Feed).url = some r' ∧
      (false = true → r'.fail_count = 0 ∧ r'.last_success = some 100) ∧
      (false = false →
        r'.fail_count = ((hget [("http://bad", ⟨2, none, some 50, "Bad"⟩)]
          (⟨"Bad", "http://bad", none, none⟩ : Feed).url).elim 0
            (fun r => r.fail_count)) + 1 ∧
        r'.last_failure = some 100) ∧
      ((∀ p ∈ ([("http://bad", ⟨2, none, some 50, "Bad"⟩)] : Health),
          0 ≤ p.2.fail_count) →
        ∀ p ∈ probeStep 100 [("http://bad", ⟨2, none, some 50, "Bad"⟩)]
          ⟨"Bad", "http://bad", none, none⟩ false, 0 ≤ p.2.fail_count) :=
  claim_C5_probe 100 [("http://bad", ⟨2, none, some 50, "Bad"⟩)]
    ⟨"Bad", "http://bad", none, none⟩ false

/-- Witness for C7: a weighted feed article, a search-API article, and a
selected article whose final score is base plus keyword score. -/
theorem claim_C7_witness :
    (⟨"A", "http://a", "", 1000, "F1", 2, "RSS"⟩ : Article).score = 2 ∧
    (⟨"N", "http://n", "", 900, "NewsAPI", 0, "NewsAPI"⟩ : Article).score = 0 ∧
    (∃ a₀ ∈ fetchedAll []
        [(⟨"F1", "http://f1", none⟩,
          [⟨some 1000, none, some "ai news", some "http://a", some ""⟩])] 1000 24,
      a₀.url = (⟨"ai news", "http://a", "", 1000, "F1", 2, "RSS"⟩ : Article).url ∧
      (⟨"ai news", "http://a", "", 1000, "F1", 2, "RSS"⟩ : Article).score =
        a₀.score + score_ ["ai"] a₀) :=
  ⟨claim_C7_score.1 ⟨"F1", "http://f1", some 2⟩
      [⟨some 1000, none, some "A", some "http://a", some ""⟩] 1000 24
      ⟨"A", "http://a", "", 1000, "F1", 2, "RSS"⟩ (by with_unfolding_all decide),
   claim_C7_score.2.1 [⟨some "http://n", some "N", none, none, none, some 900⟩]
      ⟨"N", "http://n", "", 900, "NewsAPI", 0, "NewsAPI"⟩
      (by with_unfolding_all decide),
   claim_C7_score.2.2 ⟨["ai"], 24, 5, 3⟩ []
      [(⟨"F1", "http://f1", none⟩,
        [⟨some 1000, none, some "ai news", some "http://a", some ""⟩])] [] 1000
      ⟨"ai news", "http://a", "", 1000, "F1", 2, "RSS"⟩
      (by with_unfolding_all decide)⟩

/-- Witness for C9 (amended): a link-less entry in the window is returned
with url `""` and its publication time is within the window. -/
theorem claim_C9_witness :
    1000 - 24 * 3600 ≤
      (⟨"T", "", "S", 1000, "FeedX", 1, "RSS"⟩ : Article).published_at ∧
    ∃ e ∈ [(⟨some 1000, none, some "T", none, some "S"⟩ : RssEntry)],
      resolvedPub e =
        some (⟨"T", "", "S", 1000, "FeedX", 1, "RSS"⟩ : Article).published_at ∧
      (⟨"T", "", "S", 1000, "FeedX", 1, "RSS"⟩ : Article).url = e.link.getD "" :=
  claim_C9_amended ⟨"FeedX", "http://feedx", none⟩
    [⟨some 1000, none, some "T", none, some "S"⟩] 1000 24
    ⟨"T", "", "S", 1000, "FeedX", 1, "RSS"⟩ (by with_unfolding_all decide)

/-- Witness for C10: a returned article has a non-empty url. -/
theorem claim_C10_witness :
    (⟨"A", "http://a", "", 1000, "F1", 1, "RSS"⟩ : Article).url ≠ "" :=
  claim_C10_url_nonempty ⟨[], 24, 5, 3⟩ []
    [(⟨"F1", "http://f1", none⟩,
      [⟨some 1000, none, some "A", some "http://a", some ""⟩])] [] 1000
    ⟨"A", "http://a", "", 1000, "F1", 1, "RSS"⟩ (by with_unfolding_all decide)
